import Mathlib

/-!
Verification development for the texas-tides dashboard core
(time/tide reconciliation logic).

The JavaScript sources are shallowly embedded:

* Instants (JS `Date` values produced by `parseNOAALocalTime` and
  `new Date(...)`) are modelled as `Int` milliseconds on a local-time
  axis with a fixed UTC offset (the app requests `time_zone=lst_ldt`
  and works in timezone-naive civil time throughout); calendar-day
  arithmetic (`new Date(y,m,d,0,0,0,0)`, `setDate(+k)`) is therefore
  truncation to, and shifting by, multiples of `msPerDay`.
* Nullable numbers (`safeFloat` results, JS `null`) are `Option ℚ`.
  JS relational comparison coerces `null` to `0`; `jsGt`/`jsLt`
  reproduce that coercion exactly.
* `Math.round` is `jsRound` (round half toward positive infinity).
* Fallible functions returning JS `null` return `Option`.

Each definition mirrors one function of the repository, named after it;
source locations are given in the doc comments.
-/

namespace TexasTides

/-- Milliseconds per day. -/
def msPerDay : Int := 86400000

/-- Milliseconds per hour. -/
def msPerHour : Int := 3600000

/-- Milliseconds per minute. -/
def msPerMinute : Int := 60000

/-- JS numeric coercion of a nullable level: `null` becomes `0` inside
relational comparisons (`ToNumber(null) = +0`). -/
def jsNum (v : Option ℚ) : ℚ := v.getD 0

/-- JS `a > b` on nullable numeric levels. -/
def jsGt (a b : Option ℚ) : Bool := jsNum b < jsNum a

/-- JS `a < b` on nullable numeric levels. -/
def jsLt (a b : Option ℚ) : Bool := jsNum a < jsNum b

/-- JS `Math.round`: round to nearest, half toward positive infinity. -/
def jsRound (x : ℚ) : Int := ⌊x + 1/2⌋

/-- Whether `pat` is a prefix of `s` (character lists). -/
def charPrefix : List Char → List Char → Bool
  | [], _ => true
  | _ :: _, [] => false
  | p :: ps, c :: cs => p == c && charPrefix ps cs

/-- Whether `pat` occurs as a contiguous substring of `s`
(character lists). -/
def charContains : List Char → List Char → Bool
  | [], pat => pat.isEmpty
  | c :: cs, pat => charPrefix pat (c :: cs) || charContains cs pat

/-- JS `String.prototype.includes`: contiguous-substring test. -/
def jsIncludes (s pat : String) : Bool := charContains s.data pat.data

/-- JS `String.prototype.toLowerCase` (on the ASCII kind strings the
sources pass in). -/
def jsToLower (s : String) : String := String.mk (s.data.map Char.toLower)

/-- A predicted or observed water-level sample
(`{time, ft}` as built in `src/js/api/noaa.js` by `fetchPredictions`
and `fetchObservedWaterLevels`; `ft` comes from `safeFloat` and may be
null). -/
structure TidePoint where
  time : Int
  ft : Option ℚ
deriving DecidableEq, Repr

/-- A high/low extremum event
(`{time, ft, kind}` as built by `fetchHiloEvents` in
`src/js/api/noaa.js`; `kind` is the string `High` or `Low`). -/
structure TideEvent where
  time : Int
  ft : Option ℚ
  kind : String
deriving DecidableEq, Repr

/-- Result of `computePhaseFromHilo` (`src/js/api/noaa.js:310-340`). -/
structure PhaseResult where
  text : String
  prevEvent : Option TideEvent
  nextEvent : Option TideEvent
deriving DecidableEq, Repr

/-! ## src/js/utils/formatting.js -/

/-- `getTideDirArrow` (`src/js/utils/formatting.js:94-104`). -/
def getTideDirArrow (prevKind nextKind : String) : String :=
  if prevKind = "" || nextKind = "" then ""
  else
    let prev := jsToLower prevKind
    let next := jsToLower nextKind
    if jsIncludes prev "low" && jsIncludes next "high" then "↗️"
    else if jsIncludes prev "high" && jsIncludes next "low" then "↘️"
    else "➡️"

/-- `determineTrend` (`src/js/utils/formatting.js:124-134`).
The source gives `threshold` the default value `0.05`; the default is
made explicit at call sites here. -/
def determineTrend (currentLevel previousLevel : Option ℚ) (threshold : ℚ) : String :=
  match currentLevel, previousLevel with
  | none, _ => "unknown"
  | _, none => "unknown"
  | some c, some p =>
    let diff := c - p
    if diff > threshold then "rising"
    else if diff < -threshold then "falling"
    else "steady"

/-! ## src/js/utils/datetime.js -/

/-- `new Date(now.getFullYear(), now.getMonth(), now.getDate(), 0, 0, 0, 0)`:
truncation of a local-time instant to the start of its civil day. -/
def midnightOf (t : Int) : Int := msPerDay * (t / msPerDay)

/-- Hour-of-day component of an instant (0..23). -/
def hourOfDay (t : Int) : Int := t % msPerDay / msPerHour

/-- Minute component of an instant (0..59). -/
def minuteOfHour (t : Int) : Int := t % msPerHour / msPerMinute

/-- Second component of an instant (0..59). -/
def secondOfMinute (t : Int) : Int := t % msPerMinute / 1000

/-- Millisecond component of an instant (0..999). -/
def msOfSecond (t : Int) : Int := t % 1000

/-- The `{beginDate, endDate}` instants of the range returned by
`getDateRangeFromMidnightToday` (the `begin`/`end` fields of the source
are just `formatNOAADate` renderings of the same two instants for the
outgoing request string). -/
structure DateRange where
  beginDate : Int
  endDate : Int
deriving DecidableEq, Repr

/-- `getDateRangeFromMidnightToday` (`src/js/utils/datetime.js:81-97`).
The source reads the wall clock with `new Date()`; that instant is the
explicit parameter `now` here. `endDate.setDate(endDate.getDate() + numDays)`
shifts the midnight anchor by `numDays` civil days. -/
def getDateRangeFromMidnightToday (numDays : Int) (now : Int) : DateRange :=
  let midnightToday := midnightOf now
  let endDate := midnightToday + numDays * msPerDay
  ⟨midnightToday, endDate⟩

/-! ## computePhaseFromHilo (src/js/api/noaa.js:310-340) -/

/-- The single forward scan of `computePhaseFromHilo`
(`src/js/api/noaa.js:315-325`): update `prevEvent` while
`event.time <= now`; the first event with `event.time > now` becomes
`nextEvent` and the loop breaks. `acc` is the running `prevEvent`. -/
def phaseScan : List TideEvent → Int → Option TideEvent → Option TideEvent × Option TideEvent
  | [], _, prev => (prev, none)
  | e :: rest, now, prev =>
    if e.time ≤ now then phaseScan rest now (some e)
    else (prev, some e)

/-- `computePhaseFromHilo` (`src/js/api/noaa.js:310-340`).
The three-character escape sequence between the two
kinds reproduces the literal bytes of the template string on line 337
of the source (a mojibake rendering of a rightwards arrow). -/
def computePhaseFromHilo (events : List TideEvent) (now : Int) : PhaseResult :=
  if events.length < 2 then ⟨"n/a", none, none⟩
  else
    match phaseScan events now none with
    | (none, nextEvent) => ⟨"n/a", none, nextEvent⟩
    | (some prevEvent, none) => ⟨"n/a", some prevEvent, none⟩
    | (some prevEvent, some nextEvent) =>
      let total : ℚ := ((nextEvent.time - prevEvent.time : Int) : ℚ) / 1000
      let elapsed : ℚ := ((now - prevEvent.time : Int) : ℚ) / 1000
      let frac := elapsed / total
      let pct := jsRound (frac * 100)
      let arrow := getTideDirArrow prevEvent.kind nextEvent.kind
      ⟨toString pct ++ "% " ++ prevEvent.kind ++ "\u00E2\u2020\u2019" ++ nextEvent.kind
          ++ " " ++ arrow,
        some prevEvent, some nextEvent⟩

/-! ## fetch24HourCurve (src/js/api/noaa.js:202-248) -/

/-- One chart-ready series of a curve bundle (`{times, heights}`). -/
structure CurveSeries where
  times : List Int
  heights : List (Option ℚ)
deriving DecidableEq, Repr

/-- The bundle returned by `fetch24HourCurve`
(`src/js/api/noaa.js:237-247`): `predicted` always present, `observed`
present only when the observed series is non-empty. -/
structure Curve24 where
  predicted : CurveSeries
  observed : Option CurveSeries
  nowIndex : Nat
deriving DecidableEq, Repr

/-- The closest-to-now scan of `fetch24HourCurve`
(`src/js/api/noaa.js:224-234`): running minimum of `|pred.time - now|`
over the predictions, first minimum kept; `minDiff` starts at
`Infinity`, modelled by `none`. -/
def nowScan : List TidePoint → Int → Nat → Option Int → Nat → Nat
  | [], _, _, _, best => best
  | p :: rest, now, idx, minDiff, best =>
    let diff := |p.time - now|
    if (match minDiff with | none => true | some m => decide (diff < m)) then
      nowScan rest now (idx + 1) (some diff) idx
    else
      nowScan rest now (idx + 1) minDiff best

/-- Index of the point closest to `now` (`nowIndex` starts at 0). -/
def nowIndexOf (predictions : List TidePoint) (now : Int) : Nat :=
  nowScan predictions now 0 none 0

/-- The pure core of `fetch24HourCurve` (`src/js/api/noaa.js:202-248`),
taking the already-fetched prediction and observation series and the
wall-clock instant as explicit inputs: returns `none` (JS `null`) when
the predicted series is empty, otherwise the bundle. -/
def fetch24HourCurveCore (predictions observed : List TidePoint) (now : Int) : Option Curve24 :=
  if predictions.length = 0 then none
  else
    some
      { predicted := ⟨predictions.map TidePoint.time, predictions.map TidePoint.ft⟩
        observed :=
          if observed.length > 0 then
            some ⟨observed.map TidePoint.time, observed.map TidePoint.ft⟩
          else none
        nowIndex := nowIndexOf predictions now }

/-- The bundle consumed by `renderTideChart`
(`src/js/ui/chart.js:12-19`): like `Curve24` but carrying the
`noPredictions` flag, with `predicted` absent in fallback mode. -/
structure CurveBundle where
  predicted : Option CurveSeries
  observed : Option CurveSeries
  nowIndex : Nat
  noPredictions : Bool
deriving DecidableEq, Repr

/-- Modelled from the spec: the no-predictions fallback branch of the
24-hour curve assembler is absent from src/ (its consumer
`renderTideChart` in `src/js/ui/chart.js:12-19` accepts bundles flagged
`noPredictions: true`, but no producer of that flag exists under src/,
where `fetch24HourCurve` returns null whenever `predicted` is empty).
Following spec.md section 4.2: returns null if `predicted` is empty
UNLESS operating in no-predictions fallback mode, in which case
`observed` alone is acceptable and the bundle is flagged
`noPredictions: true`; the nearest-to-now index is taken over the
available series. Outside fallback the behaviour is that of
`fetch24HourCurveCore`. -/
def assembleCurve (predictions observed : List TidePoint) (now : Int)
    (fallbackMode : Bool) : Option CurveBundle :=
  if predictions.length = 0 then
    if fallbackMode then
      some
        { predicted := none
          observed :=
            if observed.length > 0 then
              some ⟨observed.map TidePoint.time, observed.map TidePoint.ft⟩
            else none
          nowIndex := nowIndexOf observed now
          noPredictions := true }
    else none
  else
    some
      { predicted := some ⟨predictions.map TidePoint.time, predictions.map TidePoint.ft⟩
        observed :=
          if observed.length > 0 then
            some ⟨observed.map TidePoint.time, observed.map TidePoint.ft⟩
          else none
        nowIndex := nowIndexOf predictions now
        noPredictions := false }

/-! ## getTideTimesForDay (src/js/ui/forecastPopup.js:120-169) -/

/-- The day filter of `getTideTimesForDay`
(`src/js/ui/forecastPopup.js:125-137`): midnight of the current day is
derived from the wall clock (`now`), shifted by `dayIndex` civil days;
the bucket keeps the points with `dayStart <= time < dayEnd`. -/
def dayBucket (dayIndex : Nat) (tidePredictions : List TidePoint) (now : Int) : List TidePoint :=
  let midnightToday := midnightOf now
  let dayStart := midnightToday + (dayIndex : Int) * msPerDay
  let dayEnd := dayStart + msPerDay
  tidePredictions.filter (fun pred => decide (dayStart ≤ pred.time) && decide (pred.time < dayEnd))

/-- The high/low selection loop of `getTideTimesForDay`
(`src/js/ui/forecastPopup.js:143-154`): one pass updating the running
high (`pred.ft > highTide.ft`) and running low (`pred.ft < lowTide.ft`),
with the JS null-to-0 coercion of `jsGt`/`jsLt`. -/
def selectLoop : List TidePoint → TidePoint → TidePoint → TidePoint × TidePoint
  | [], highTide, lowTide => (highTide, lowTide)
  | pred :: rest, highTide, lowTide =>
    let highTide := if jsGt pred.ft highTide.ft then pred else highTide
    let lowTide := if jsLt pred.ft lowTide.ft then pred else lowTide
    selectLoop rest highTide lowTide

/-- The `formatTime` helper of `getTideTimesForDay`
(`src/js/ui/forecastPopup.js:157-163`): `toLocaleString` with
`en-US`, numeric hour, 2-digit minute, 12-hour clock. -/
def formatTime12 (t : Int) : String :=
  let h := hourOfDay t
  let m := minuteOfHour t
  let h12 := if h % 12 = 0 then 12 else h % 12
  let ampm := if h < 12 then "AM" else "PM"
  let mm := if m < 10 then "0" ++ toString m else toString m
  toString h12 ++ ":" ++ mm ++ " " ++ ampm

/-- `getTideTimesForDay` (`src/js/ui/forecastPopup.js:120-169`),
returning the `(high, low)` formatted time strings. The wall clock read
by `new Date()` on line 126 of the source is the explicit parameter
`now`. -/
def getTideTimesForDay (dayIndex : Nat) (tidePredictions : List TidePoint) (now : Int) :
    String × String :=
  if tidePredictions.length = 0 then ("N/A", "N/A")
  else
    match dayBucket dayIndex tidePredictions now with
    | [] => ("N/A", "N/A")
    | p :: rest =>
      let (highTide, lowTide) := selectLoop (p :: rest) p p
      (formatTime12 highTide.time, formatTime12 lowTide.time)

/-! ## Theorems -/

/-- C7 counterexample: at `current = previous = 0`, `threshold = -1`,
the code returns `rising` even though `current - previous < -threshold`,
so the claimed equivalence `falling ↔ diff < -threshold` fails for a
negative threshold. -/
theorem determineTrend_negative_threshold_cex :
    ¬ ((determineTrend (some 0) (some 0) (-1) = "falling") ↔
        ((0 : ℚ) - 0 < -(-1 : ℚ))) := by
  have h1 : determineTrend (some 0) (some 0) (-1) = "rising" := by
    norm_num [determineTrend]
  intro h
  have h2 := h.mpr (by norm_num)
  rw [h1] at h2
  simp at h2

/-- C7 (amended: nonnegative dead-band threshold): `determineTrend`
returns exactly one of rising/falling/steady/unknown, returns unknown
iff an input is null, and otherwise classifies the difference against
the dead-band. -/
theorem determineTrend_classification (current previous : Option ℚ) (threshold : ℚ)
    (ht : 0 ≤ threshold) :
    (determineTrend current previous threshold = "rising" ∨
     determineTrend current previous threshold = "falling" ∨
     determineTrend current previous threshold = "steady" ∨
     determineTrend current previous threshold = "unknown") ∧
    (determineTrend current previous threshold = "unknown" ↔
      current = none ∨ previous = none) ∧
    (∀ c p, current = some c → previous = some p →
      ((determineTrend current previous threshold = "rising" ↔ threshold < c - p) ∧
       (determineTrend current previous threshold = "falling" ↔ c - p < -threshold) ∧
       (determineTrend current previous threshold = "steady" ↔
         -threshold ≤ c - p ∧ c - p ≤ threshold))) := by
  rcases current with _ | c0 <;> rcases previous with _ | p0 <;>
    simp only [determineTrend]
  · refine ⟨by tauto, by simp, by simp⟩
  · refine ⟨by tauto, by simp, by simp⟩
  · refine ⟨by tauto, by simp, by simp⟩
  · split_ifs with h1 h2
    · refine ⟨by tauto, by simp, ?_⟩
      rintro c p ⟨rfl⟩ ⟨rfl⟩
      refine ⟨by simpa using h1, ?_, ?_⟩
      · simp only [iff_false, String.reduceEq, false_iff]
        intro hcon; linarith
      · simp only [String.reduceEq, false_iff, not_and, not_le]
        intro _; linarith
    · refine ⟨by tauto, by simp, ?_⟩
      rintro c p ⟨rfl⟩ ⟨rfl⟩
      refine ⟨?_, by simpa using h2, ?_⟩
      · simp only [String.reduceEq, false_iff, not_lt]
        linarith
      · simp only [String.reduceEq, false_iff, not_and, not_le]
        intro hcon; linarith
    · refine ⟨by tauto, by simp, ?_⟩
      rintro c p ⟨rfl⟩ ⟨rfl⟩
      push_neg at h1 h2
      refine ⟨?_, ?_, ?_⟩
      · simp only [String.reduceEq, false_iff, not_lt]; exact h1
      · simp only [String.reduceEq, false_iff, not_lt]; exact h2
      · simp only [String.reduceEq, true_iff]; exact ⟨h2, h1⟩

/-- C7 witness: the classification at `current = 1`, `previous = 0`,
`threshold = 1/2`. -/
theorem determineTrend_classification_witness :
    (determineTrend (some 1) (some 0) (1/2) = "rising" ∨
     determineTrend (some 1) (some 0) (1/2) = "falling" ∨
     determineTrend (some 1) (some 0) (1/2) = "steady" ∨
     determineTrend (some 1) (some 0) (1/2) = "unknown") ∧
    (determineTrend (some 1) (some 0) (1/2) = "unknown" ↔
      (some (1:ℚ)) = none ∨ (some (0:ℚ)) = none) ∧
    (∀ c p, (some (1:ℚ)) = some c → (some (0:ℚ)) = some p →
      ((determineTrend (some 1) (some 0) (1/2) = "rising" ↔ (1:ℚ)/2 < c - p) ∧
       (determineTrend (some 1) (some 0) (1/2) = "falling" ↔ c - p < -((1:ℚ)/2)) ∧
       (determineTrend (some 1) (some 0) (1/2) = "steady" ↔
         -((1:ℚ)/2) ≤ c - p ∧ c - p ≤ (1:ℚ)/2))) :=
  determineTrend_classification (some 1) (some 0) (1/2) (by norm_num)

/-- C8 counterexample: at `current = previous = 1`, `threshold = -2`,
both the call and its argument-swapped call return `rising`, so the
swap does not turn a rising result into falling. -/
theorem determineTrend_swap_cex :
    determineTrend (some 1) (some 1) (-2) = "rising" ∧
    ¬ determineTrend (some 1) (some 1) (-2) = "falling" := by
  have h1 : determineTrend (some 1) (some 1) (-2) = "rising" := by
    norm_num [determineTrend]
  refine ⟨h1, ?_⟩
  rw [h1]
  decide

/-- C8 (amended: nonnegative dead-band threshold): swapping the two
level arguments exchanges rising and falling and preserves steady and
unknown. -/
theorem determineTrend_swap (current previous : Option ℚ) (threshold : ℚ)
    (ht : 0 ≤ threshold) :
    (determineTrend current previous threshold = "rising" ↔
      determineTrend previous current threshold = "falling") ∧
    (determineTrend current previous threshold = "falling" ↔
      determineTrend previous current threshold = "rising") ∧
    (determineTrend current previous threshold = "steady" ↔
      determineTrend previous current threshold = "steady") ∧
    (determineTrend current previous threshold = "unknown" ↔
      determineTrend previous current threshold = "unknown") := by
  rcases current with _ | c0 <;> rcases previous with _ | p0 <;>
    simp only [determineTrend]
  · decide
  · decide
  · decide
  by_cases h1 : threshold < c0 - p0
  · have h2 : ¬ threshold < p0 - c0 := by intro hcon; linarith
    have h3 : p0 - c0 < -threshold := by linarith
    rw [if_pos h1, if_neg h2, if_pos h3]
    decide
  · by_cases h2 : c0 - p0 < -threshold
    · have h3 : threshold < p0 - c0 := by linarith
      rw [if_neg h1, if_pos h2, if_pos h3]
      decide
    · have h3 : ¬ threshold < p0 - c0 := by intro hcon; linarith
      have h4 : ¬ p0 - c0 < -threshold := by intro hcon; linarith
      rw [if_neg h1, if_neg h2, if_neg h3, if_neg h4]
      decide

/-- C8 witness: the swap equivalences at `current = 1`, `previous = 0`,
`threshold = 1/2`. -/
theorem determineTrend_swap_witness :
    (determineTrend (some 1) (some 0) (1/2) = "rising" ↔
      determineTrend (some 0) (some 1) (1/2) = "falling") ∧
    (determineTrend (some 1) (some 0) (1/2) = "falling" ↔
      determineTrend (some 0) (some 1) (1/2) = "rising") ∧
    (determineTrend (some 1) (some 0) (1/2) = "steady" ↔
      determineTrend (some 0) (some 1) (1/2) = "steady") ∧
    (determineTrend (some 1) (some 0) (1/2) = "unknown" ↔
      determineTrend (some 0) (some 1) (1/2) = "unknown") :=
  determineTrend_swap (some 1) (some 0) (1/2) (by norm_num)

/-- C9: for every invocation instant, `getDateRangeFromMidnightToday 7`
begins at the midnight of the current civil day (zero hour, minute,
second and millisecond components) and spans exactly 7 times 24 hours. -/
theorem getDateRangeFromMidnightToday_seven (now : Int) :
    (getDateRangeFromMidnightToday 7 now).beginDate = midnightOf now ∧
    (getDateRangeFromMidnightToday 7 now).endDate -
      (getDateRangeFromMidnightToday 7 now).beginDate = 7 * 24 * msPerHour ∧
    hourOfDay ((getDateRangeFromMidnightToday 7 now).beginDate) = 0 ∧
    minuteOfHour ((getDateRangeFromMidnightToday 7 now).beginDate) = 0 ∧
    secondOfMinute ((getDateRangeFromMidnightToday 7 now).beginDate) = 0 ∧
    msOfSecond ((getDateRangeFromMidnightToday 7 now).beginDate) = 0 := by
  have hday : msPerDay * (now / msPerDay) = msPerHour * (24 * (now / msPerDay)) := by
    norm_num [msPerDay, msPerHour]; ring
  have hmin : msPerDay * (now / msPerDay) = msPerMinute * (1440 * (now / msPerDay)) := by
    norm_num [msPerDay, msPerMinute]; ring
  have hms : msPerDay * (now / msPerDay) = 1000 * (86400 * (now / msPerDay)) := by
    norm_num [msPerDay]; ring
  refine ⟨rfl, ?_, ?_, ?_, ?_, ?_⟩
  · simp only [getDateRangeFromMidnightToday]
    norm_num [msPerDay, msPerHour]
  · simp only [getDateRangeFromMidnightToday, midnightOf, hourOfDay]
    rw [Int.mul_emod_right]
    simp
  · simp only [getDateRangeFromMidnightToday, midnightOf, minuteOfHour]
    rw [hday, Int.mul_emod_right]
    simp
  · simp only [getDateRangeFromMidnightToday, midnightOf, secondOfMinute]
    rw [hmin, Int.mul_emod_right]
    simp
  · simp only [getDateRangeFromMidnightToday, midnightOf, msOfSecond]
    rw [hms, Int.mul_emod_right]

/-- C4 counterexample: identical inputs, two invocation instants on
different calendar days: the bucket (and hence the result) changes with
the instant at which the partition is invoked. -/
theorem getTideTimesForDay_wallclock_cex :
    getTideTimesForDay 0 [⟨43200000, some 1⟩] 0
      ≠ getTideTimesForDay 0 [⟨43200000, some 1⟩] 86400000 := by
  simp [getTideTimesForDay, dayBucket, midnightOf, msPerDay, selectLoop, jsGt, jsLt, jsNum,
    formatTime12, hourOfDay, minuteOfHour, msPerHour, msPerMinute]
  decide

/-- C4 (amended): the partition depends on the invocation instant only
through the midnight anchor derived from it — two calls with identical
series and day index, invoked at instants of the same calendar day,
yield identical results. -/
theorem getTideTimesForDay_pure (dayIndex : Nat) (tidePredictions : List TidePoint)
    (now₁ now₂ : Int) (h : midnightOf now₁ = midnightOf now₂) :
    getTideTimesForDay dayIndex tidePredictions now₁ =
      getTideTimesForDay dayIndex tidePredictions now₂ := by
  simp only [getTideTimesForDay, dayBucket, h]

/-- C4 witness: two instants of the same day (1 second and 2 seconds
past midnight) give the same buckets. -/
theorem getTideTimesForDay_pure_witness :
    getTideTimesForDay 0 [⟨43200000, some 1⟩] 1000 =
      getTideTimesForDay 0 [⟨43200000, some 1⟩] 2000 :=
  getTideTimesForDay_pure 0 [⟨43200000, some 1⟩] 1000 2000 (by decide)

/-- C6: at the failing input — a day bucket holding a real reading of
−0.3 ft at 06:00 and a null-valued point at 12:00 — the selection loop
coerces the null to 0, judges `null > -0.3` true, and reports the
null-valued point as the High of the day (the correct High, −0.3 ft at
06:00, is instead reported as the Low). -/
theorem getTideTimesForDay_null_as_zero :
    getTideTimesForDay 0 [⟨21600000, some (-3/10)⟩, ⟨43200000, none⟩] 1000
      = ("12:00 PM", "6:00 AM") := by
  simp [getTideTimesForDay, dayBucket, midnightOf, msPerDay, selectLoop, jsGt, jsLt, jsNum,
    formatTime12, hourOfDay, minuteOfHour, msPerHour, msPerMinute]
  norm_num
  decide

/-- C2 (fallback branch modelled from the spec): with an empty predicted
series and a non-empty observed series, the assembler in fallback mode
returns a bundle flagged `noPredictions := true` with the observed series
populated; with fallback disabled it returns none — as does the actual
`fetch24HourCurve` core in src/, which has no fallback branch — and with
fallback available it never returns none while observed data exists. -/
theorem assembleCurve_noPredictions_fallback (observed : List TidePoint) (now : Int)
    (hobs : observed ≠ []) :
    (∃ b, assembleCurve [] observed now true = some b ∧
      b.noPredictions = true ∧
      b.observed = some ⟨observed.map TidePoint.time, observed.map TidePoint.ft⟩) ∧
    assembleCurve [] observed now false = none ∧
    fetch24HourCurveCore [] observed now = none ∧
    (∀ predictions, assembleCurve predictions observed now true ≠ none) := by
  have hlen : 0 < observed.length := List.length_pos.mpr hobs
  have hmain : assembleCurve [] observed now true = some
      { predicted := none
        observed := some ⟨observed.map TidePoint.time, observed.map TidePoint.ft⟩
        nowIndex := nowIndexOf observed now
        noPredictions := true } := by
    simp [assembleCurve, hlen]
  refine ⟨⟨_, hmain, rfl, rfl⟩,
    by simp [assembleCurve], by simp [fetch24HourCurveCore], ?_⟩
  intro predictions
  by_cases hp : predictions.length = 0 <;> simp [assembleCurve, hp, hlen]

/-- C2 witness: a one-point observed series with empty predictions. -/
theorem assembleCurve_noPredictions_fallback_witness :
    (∃ b, assembleCurve [] [⟨0, some 1⟩] 0 true = some b ∧
      b.noPredictions = true ∧
      b.observed = some ⟨[(⟨0, some 1⟩ : TidePoint).time], [(⟨0, some 1⟩ : TidePoint).ft]⟩) ∧
    assembleCurve [] [⟨0, some 1⟩] 0 false = none ∧
    fetch24HourCurveCore [] [⟨0, some 1⟩] 0 = none ∧
    (∀ predictions, assembleCurve predictions [⟨0, some 1⟩] 0 true ≠ none) :=
  assembleCurve_noPredictions_fallback [⟨0, some 1⟩] 0 (by simp)

/-! ## Phase-scan lemmas -/

/-- The last element named by `getLast?` is a member of the list. -/
lemma mem_of_getLast?_eq {α : Type} {l : List α} {x : α} (h : l.getLast? = some x) :
    x ∈ l := by
  have hx : x ∈ l.getLast? := h
  rcases List.mem_getLast?_eq_getLast hx with ⟨hne, hx2⟩
  subst hx2
  exact List.getLast_mem hne

/-- Pushing an element under `getLast?` with an `Option.or` default. -/
lemma getLast?_or_cons {α : Type} (e : α) (l : List α) (acc : Option α) :
    ((e :: l).getLast?).or acc = (l.getLast?).or (some e) := by
  cases l with
  | nil => simp [Option.or]
  | cons a t =>
    rw [List.getLast?_cons_cons,
      List.getLast?_eq_getLast_of_ne_nil (l := a :: t) (by simp)]
    simp [Option.or]

/-- In a list sorted by event time, every element is at most the last. -/
lemma pairwise_le_getLast :
    ∀ (l : List TideEvent), l.Pairwise (fun a b => a.time ≤ b.time) →
      ∀ x ∈ l, ∀ p, l.getLast? = some p → x.time ≤ p.time := by
  intro l
  induction l with
  | nil => simp
  | cons a t ih =>
    intro hs x hx p hp
    rcases List.pairwise_cons.mp hs with ⟨ha, ht⟩
    cases t with
    | nil =>
      simp at hp hx
      rw [hx, ← hp]
    | cons b t2 =>
      rw [List.getLast?_cons_cons] at hp
      rcases List.mem_cons.mp hx with rfl | hxt
      · exact ha p (mem_of_getLast?_eq hp)
      · exact ih ht x hxt p hp

/-- Structure of the forward scan: the scanned list splits into a
prefix of events at or before `now` and a suffix opening (if non-empty)
with an event strictly after `now`; the scan returns the last prefix
element (or the accumulator) and the head of the suffix. -/
lemma phaseScan_split (l : List TideEvent) (now : Int) :
    ∀ acc, ∃ l₁ l₂, l = l₁ ++ l₂ ∧ (∀ e ∈ l₁, e.time ≤ now) ∧
      (∀ q, l₂.head? = some q → now < q.time) ∧
      phaseScan l now acc = ((l₁.getLast?).or acc, l₂.head?) := by
  induction l with
  | nil =>
    intro acc
    exact ⟨[], [], rfl, by simp, by simp, by simp [phaseScan, Option.or]⟩
  | cons e rest ih =>
    intro acc
    by_cases h : e.time ≤ now
    · obtain ⟨l₁, l₂, hsplit, h₁, h₂, hscan⟩ := ih (some e)
      refine ⟨e :: l₁, l₂, by simp [hsplit], ?_, h₂, ?_⟩
      · intro x hx
        rcases List.mem_cons.mp hx with rfl | hx2
        · exact h
        · exact h₁ x hx2
      · have hstep : phaseScan (e :: rest) now acc = phaseScan rest now (some e) := by
          simp [phaseScan, h]
        rw [hstep, hscan, getLast?_or_cons]
    · refine ⟨[], e :: rest, rfl, by simp, ?_, by simp [phaseScan, h, Option.or]⟩
      intro q hq
      simp at hq
      rw [← hq]
      exact lt_of_not_le h

/-- C10: whenever the scan produces a bracketing pair — exactly the
condition under which `computePhaseFromHilo` reaches its fraction
computation — the pair satisfies `prevEvent.time <= now < nextEvent.time`,
so the denominator of the fraction is strictly positive; this holds for
every input list, sorted or not. -/
theorem phaseScan_bracket_pos (events : List TideEvent) (now : Int) (p q : TideEvent)
    (h : phaseScan events now none = (some p, some q)) :
    p.time ≤ now ∧ now < q.time ∧ 0 < q.time - p.time := by
  obtain ⟨l₁, l₂, hsplit, h₁, h₂, hscan⟩ := phaseScan_split events now none
  rw [h] at hscan
  have hp : l₁.getLast? = some p := by
    have h' := congrArg Prod.fst hscan
    simpa [Option.or_none] using h'.symm
  have hq : l₂.head? = some q := by
    have h' := congrArg Prod.snd hscan
    exact h'.symm
  have h1 : p.time ≤ now := h₁ p (mem_of_getLast?_eq hp)
  have h2 : now < q.time := h₂ q hq
  exact ⟨h1, h2, by linarith⟩

/-- C10 witness: the bracketing pair around `now = 50` for two events at
times 0 and 100. -/
theorem phaseScan_bracket_pos_witness :
    (⟨0, some 1, "High"⟩ : TideEvent).time ≤ 50 ∧
      (50 : Int) < (⟨100, some 0, "Low"⟩ : TideEvent).time ∧
      (0 : Int) < (⟨100, some 0, "Low"⟩ : TideEvent).time -
        (⟨0, some 1, "High"⟩ : TideEvent).time :=
  phaseScan_bracket_pos [⟨0, some 1, "High"⟩, ⟨100, some 0, "Low"⟩] 50
    ⟨0, some 1, "High"⟩ ⟨100, some 0, "Low"⟩ (by decide)

/-- C5 counterexample: with two events and `now` after the last event
time, the scan yields no bracketing pair and the result carries the
sentinel text, but `prevEvent` is the last event, not null — the claim
that both `prevEvent` and `nextEvent` are null fails. -/
theorem computePhaseFromHilo_after_last_cex :
    (computePhaseFromHilo [⟨0, some 1, "High"⟩, ⟨100, some 0, "Low"⟩] 200).text = "n/a" ∧
    (computePhaseFromHilo [⟨0, some 1, "High"⟩, ⟨100, some 0, "Low"⟩] 200).prevEvent
      = some ⟨100, some 0, "Low"⟩ ∧
    (computePhaseFromHilo [⟨0, some 1, "High"⟩, ⟨100, some 0, "Low"⟩] 200).nextEvent
      = none := by
  decide

/-- C5 (amended): with fewer than 2 events the result is the sentinel
with both events null; with 2 or more events but no bracketing pair from
the scan, the result carries the sentinel text and the scan outputs
as-is, of which at least one is null (`prevEvent` null when `now`
precedes every event, `nextEvent` null when no event lies after `now`);
the function is total, so no input makes it throw. -/
theorem computePhaseFromHilo_sentinel (events : List TideEvent) (now : Int) :
    (events.length < 2 → computePhaseFromHilo events now = ⟨"n/a", none, none⟩) ∧
    (2 ≤ events.length →
      ((phaseScan events now none).1 = none ∨ (phaseScan events now none).2 = none) →
      (computePhaseFromHilo events now).text = "n/a" ∧
      (computePhaseFromHilo events now).prevEvent = (phaseScan events now none).1 ∧
      (computePhaseFromHilo events now).nextEvent = (phaseScan events now none).2) := by
  constructor
  · intro h
    simp [computePhaseFromHilo, h]
  · intro h hor
    have hlt : ¬ events.length < 2 := by omega
    rcases hscan : phaseScan events now none with ⟨po, qo⟩
    rcases po with _ | p
    · simp [computePhaseFromHilo, hlt, hscan]
    · rcases qo with _ | q
      · simp [computePhaseFromHilo, hlt, hscan]
      · rw [hscan] at hor
        simp at hor

/-- C5 witness: the empty list gives the all-null sentinel, and a
two-event list with `now` past both events keeps the sentinel text with
the scan outputs carried through. -/
theorem computePhaseFromHilo_sentinel_witness :
    computePhaseFromHilo [] 0 = ⟨"n/a", none, none⟩ ∧
    ((computePhaseFromHilo [⟨0, some 1, "High"⟩, ⟨100, some 0, "Low"⟩] 300).text = "n/a" ∧
     (computePhaseFromHilo [⟨0, some 1, "High"⟩, ⟨100, some 0, "Low"⟩] 300).prevEvent
       = (phaseScan [⟨0, some 1, "High"⟩, ⟨100, some 0, "Low"⟩] 300 none).1 ∧
     (computePhaseFromHilo [⟨0, some 1, "High"⟩, ⟨100, some 0, "Low"⟩] 300).nextEvent
       = (phaseScan [⟨0, some 1, "High"⟩, ⟨100, some 0, "Low"⟩] 300 none).2) :=
  ⟨(computePhaseFromHilo_sentinel [] 0).1 (by decide),
   (computePhaseFromHilo_sentinel [⟨0, some 1, "High"⟩, ⟨100, some 0, "Low"⟩] 300).2
     (by decide) (by decide)⟩

/-- C1: on a chronologically sorted event list with `now` strictly
between the first and the last event time, the single forward scan
produces `prevEvent` = the latest event at or before `now` and
`nextEvent` = the earliest event strictly after `now`, and the result
text reports `(now - prevEvent.time) / (nextEvent.time - prevEvent.time)`
as a percentage rounded to the nearest integer. -/
theorem computePhaseFromHilo_between (events : List TideEvent) (now : Int)
    (hsorted : events.Pairwise (fun a b => a.time ≤ b.time))
    (hne : events ≠ [])
    (hfirst : (events.head hne).time < now)
    (hlast : now < (events.getLast hne).time) :
    ∃ p q,
      (computePhaseFromHilo events now).prevEvent = some p ∧
      (computePhaseFromHilo events now).nextEvent = some q ∧
      p ∈ events ∧ p.time ≤ now ∧
      (∀ e ∈ events, e.time ≤ now → e.time ≤ p.time) ∧
      q ∈ events ∧ now < q.time ∧
      (∀ e ∈ events, now < e.time → q.time ≤ e.time) ∧
      (computePhaseFromHilo events now).text =
        toString (jsRound (((now - p.time : Int) : ℚ) / ((q.time - p.time : Int) : ℚ) * 100))
          ++ "% " ++ p.kind ++ "\u00E2\u2020\u2019" ++ q.kind ++ " "
          ++ getTideDirArrow p.kind q.kind := by
  obtain ⟨l₁, l₂, hsplit, h₁, h₂, hscan⟩ := phaseScan_split events now none
  have hl₁ : l₁ ≠ [] := by
    intro h0
    subst h0
    simp at hsplit
    subst hsplit
    have hh := h₂ _ (List.head?_eq_head hne)
    linarith
  have hl₂ : l₂ ≠ [] := by
    intro h0
    subst h0
    have hev : events = l₁ := by simpa using hsplit
    have hmem : events.getLast hne ∈ l₁ := by
      rw [← hev]; exact List.getLast_mem hne
    have := h₁ _ hmem
    linarith
  obtain ⟨q, l₂t, rfl⟩ : ∃ q l₂t, l₂ = q :: l₂t := by
    cases l₂ with
    | nil => exact absurd rfl hl₂
    | cons q t => exact ⟨q, t, rfl⟩
  have hp? : l₁.getLast? = some (l₁.getLast hl₁) :=
    List.getLast?_eq_getLast_of_ne_nil hl₁
  have hscan2 : phaseScan events now none = (some (l₁.getLast hl₁), some q) := by
    rw [hscan, hp?]
    simp [Option.or]
  have hpmem₁ : l₁.getLast hl₁ ∈ l₁ := List.getLast_mem hl₁
  have hpnow : (l₁.getLast hl₁).time ≤ now := h₁ _ hpmem₁
  have hqnow : now < q.time := h₂ q rfl
  obtain ⟨hpw₁, hpw₂, hcross⟩ := List.pairwise_append.mp (hsplit ▸ hsorted)
  have hlen : ¬ events.length < 2 := by
    rw [hsplit, List.length_append]
    have h1p := List.length_pos.mpr hl₁
    simp only [List.length_cons]
    omega
  have hcp : computePhaseFromHilo events now =
      ⟨toString (jsRound ((((now - (l₁.getLast hl₁).time : Int) : ℚ) / 1000) /
          (((q.time - (l₁.getLast hl₁).time : Int) : ℚ) / 1000) * 100))
        ++ "% " ++ (l₁.getLast hl₁).kind ++ "\u00E2\u2020\u2019" ++ q.kind ++ " "
        ++ getTideDirArrow (l₁.getLast hl₁).kind q.kind,
        some (l₁.getLast hl₁), some q⟩ := by
    simp only [computePhaseFromHilo, hscan2, if_neg hlen]
  refine ⟨l₁.getLast hl₁, q, by rw [hcp], by rw [hcp], ?_, hpnow, ?_, ?_, hqnow, ?_, ?_⟩
  · rw [hsplit]
    exact List.mem_append_left _ hpmem₁
  · intro e he hen
    rw [hsplit] at he
    rcases List.mem_append.mp he with he₁ | he₂
    · exact pairwise_le_getLast l₁ hpw₁ e he₁ _ hp?
    · rcases List.mem_cons.mp he₂ with rfl | he₂t
      · linarith
      · have := (List.pairwise_cons.mp hpw₂).1 e he₂t
        linarith
  · rw [hsplit]
    exact List.mem_append_right _ (List.mem_cons_self _ _)
  · intro e he hen
    rw [hsplit] at he
    rcases List.mem_append.mp he with he₁ | he₂
    · have := h₁ e he₁
      linarith
    · rcases List.mem_cons.mp he₂ with rfl | he₂t
      · exact le_refl _
      · exact (List.pairwise_cons.mp hpw₂).1 e he₂t
  · rw [hcp]
    have hdiv : ∀ a b : ℚ, a / 1000 / (b / 1000) = a / b := by
      intro a b
      rcases eq_or_ne b 0 with hb | hb
      · subst hb; simp
      · field_simp
    rw [hdiv]

/-- C1 witness: events High at 10:00 and Low at 16:00 of the local
epoch day with `now` = 13:00 — the result reports 50 percent from High
to Low with the falling arrow, bracketed by the two events. -/
theorem computePhaseFromHilo_between_witness :
    (computePhaseFromHilo
        [⟨36000000, some 2, "High"⟩, ⟨57600000, some (-1), "Low"⟩] 46800000).text
      = "50% High\u00E2\u2020\u2019Low ↘️" ∧
    (∃ p q,
      (computePhaseFromHilo
          [⟨36000000, some 2, "High"⟩, ⟨57600000, some (-1), "Low"⟩] 46800000).prevEvent
        = some p ∧
      (computePhaseFromHilo
          [⟨36000000, some 2, "High"⟩, ⟨57600000, some (-1), "Low"⟩] 46800000).nextEvent
        = some q ∧
      p ∈ [⟨36000000, some 2, "High"⟩, ⟨57600000, some (-1), "Low"⟩] ∧
      p.time ≤ 46800000 ∧
      (∀ e ∈ [(⟨36000000, some 2, "High"⟩ : TideEvent), ⟨57600000, some (-1), "Low"⟩],
        e.time ≤ 46800000 → e.time ≤ p.time) ∧
      q ∈ [⟨36000000, some 2, "High"⟩, ⟨57600000, some (-1), "Low"⟩] ∧
      (46800000 : Int) < q.time ∧
      (∀ e ∈ [(⟨36000000, some 2, "High"⟩ : TideEvent), ⟨57600000, some (-1), "Low"⟩],
        (46800000 : Int) < e.time → q.time ≤ e.time) ∧
      (computePhaseFromHilo
          [⟨36000000, some 2, "High"⟩, ⟨57600000, some (-1), "Low"⟩] 46800000).text =
        toString (jsRound (((46800000 - p.time : Int) : ℚ) /
            ((q.time - p.time : Int) : ℚ) * 100))
          ++ "% " ++ p.kind ++ "\u00E2\u2020\u2019" ++ q.kind ++ " "
          ++ getTideDirArrow p.kind q.kind) :=
  ⟨by
    simp [computePhaseFromHilo, phaseScan, getTideDirArrow, jsIncludes, jsToLower,
      charContains, charPrefix]
    norm_num [jsRound]
    decide,
   computePhaseFromHilo_between
     [⟨36000000, some 2, "High"⟩, ⟨57600000, some (-1), "Low"⟩] 46800000
     (by simp [List.pairwise_cons]) (by simp) (by decide) (by decide)⟩

/-! ## Day-partition lemmas -/

/-- Running maximum by a weight function, first occurrence kept
(strict-improvement update, as in the selection loop of
`getTideTimesForDay`). -/
def runMaxBy (w : TidePoint → ℚ) : List TidePoint → TidePoint → TidePoint
  | [], best => best
  | p :: rest, best => runMaxBy w rest (if w best < w p then p else best)

/-- `x` is the first maximum of `l` by weight `w`: everything strictly
before it weighs strictly less, everything after weighs at most as
much. -/
def IsFirstMaxBy (w : TidePoint → ℚ) (l : List TidePoint) (x : TidePoint) : Prop :=
  ∃ l₁ l₂, l = l₁ ++ x :: l₂ ∧ (∀ p ∈ l₁, w p < w x) ∧ (∀ p ∈ l₂, w p ≤ w x)

/-- The selection loop is the pair of a running maximum by value and a
running maximum by negated value (running minimum), with the JS
null-to-0 coercion as the weight. -/
lemma selectLoop_eq (l : List TidePoint) : ∀ h lo,
    selectLoop l h lo =
      (runMaxBy (fun p => jsNum p.ft) l h, runMaxBy (fun p => -(jsNum p.ft)) l lo) := by
  induction l with
  | nil => intro h lo; rfl
  | cons p rest ih =>
    intro h lo
    have e1 : (if jsGt p.ft h.ft then p else h)
        = (if (fun x => jsNum x.ft) h < (fun x => jsNum x.ft) p then p else h) := by
      simp [jsGt]
    have e2 : (if jsLt p.ft lo.ft then p else lo)
        = (if (fun x => -(jsNum x.ft)) lo < (fun x => -(jsNum x.ft)) p then p else lo) := by
      simp [jsLt, neg_lt_neg_iff]
    simp only [selectLoop, runMaxBy]
    rw [e1, e2, ih]

/-- Starting the running maximum at the head of the scanned list lets
the head be dropped from the scan. -/
lemma runMaxBy_cons_self (w : TidePoint → ℚ) (p : TidePoint) (rest : List TidePoint) :
    runMaxBy w (p :: rest) p = runMaxBy w rest p := by
  simp [runMaxBy]

/-- The initial candidate never beats the running maximum. -/
lemma le_runMaxBy_self (w : TidePoint → ℚ) (l : List TidePoint) :
    ∀ b, w b ≤ w (runMaxBy w l b) := by
  induction l with
  | nil => intro b; simp [runMaxBy]
  | cons p rest ih =>
    intro b
    by_cases h : w b < w p
    · have := ih p
      simp only [runMaxBy, if_pos h]
      linarith
    · simp only [runMaxBy, if_neg h]
      exact ih b

/-- The running maximum of `b :: l` computed as `runMaxBy w l b` is the
first maximum of `b :: l`: the list splits at it with strictly smaller
weights before and no larger weights after. -/
lemma runMaxBy_split (w : TidePoint → ℚ) (l : List TidePoint) :
    ∀ b : TidePoint, ∃ l₁ l₂, b :: l = l₁ ++ runMaxBy w l b :: l₂ ∧
      (∀ p ∈ l₁, w p < w (runMaxBy w l b)) ∧
      (∀ p ∈ l₂, w p ≤ w (runMaxBy w l b)) := by
  induction l with
  | nil => intro b; exact ⟨[], [], rfl, by simp, by simp⟩
  | cons p rest ih =>
    intro b
    by_cases h : w b < w p
    · have hrw : runMaxBy w (p :: rest) b = runMaxBy w rest p := by
        simp [runMaxBy, h]
      obtain ⟨l₁, l₂, hsplit, h₁, h₂⟩ := ih p
      refine ⟨b :: l₁, l₂, ?_, ?_, by rw [hrw]; exact h₂⟩
      · rw [hrw, List.cons_append, ← hsplit]
      · rw [hrw]
        intro x hx
        rcases List.mem_cons.mp hx with rfl | hx2
        · have hple := le_runMaxBy_self w rest p
          linarith [hple]
        · exact h₁ x hx2
    · have hrw : runMaxBy w (p :: rest) b = runMaxBy w rest b := by
        simp [runMaxBy, h]
      obtain ⟨l₁, l₂, hsplit, h₁, h₂⟩ := ih b
      cases l₁ with
      | nil =>
        rw [List.nil_append] at hsplit
        injection hsplit with hb hrest
        refine ⟨[], p :: l₂, ?_, by simp, ?_⟩
        · rw [hrw, List.nil_append, ← hb, ← hrest]
        · intro x hx
          rw [hrw]
          rcases List.mem_cons.mp hx with rfl | hx2
          · rw [← hb]
            exact le_of_not_lt h
          · exact h₂ x hx2
      | cons a l₁t =>
        rw [List.cons_append] at hsplit
        injection hsplit with hb hrest
        refine ⟨a :: p :: l₁t, l₂, ?_, ?_, by rw [hrw]; exact h₂⟩
        · rw [hrw, List.cons_append, List.cons_append, ← hb, ← hrest]
        · rw [hrw]
          intro x hx
          rcases List.mem_cons.mp hx with rfl | hx2
          · exact h₁ _ (List.mem_cons_self _ _)
          rcases List.mem_cons.mp hx2 with rfl | hx3
          · have hwa : w a < w (runMaxBy w rest b) := h₁ a (List.mem_cons_self _ _)
            have hpb : w x ≤ w b := le_of_not_lt h
            rw [hb] at hpb
            linarith
          · exact h₁ x (List.mem_cons_of_mem _ hx3)

/-- The running maximum is an element of the candidate-prefixed list. -/
lemma runMaxBy_mem (w : TidePoint → ℚ) (l : List TidePoint) (b : TidePoint) :
    runMaxBy w l b ∈ b :: l := by
  obtain ⟨l₁, l₂, hs, -, -⟩ := runMaxBy_split w l b
  rw [hs]
  exact List.mem_append.mpr (Or.inr (List.mem_cons_self _ _))

/-- C3: for a series whose points all lie within the 7 days from the
midnight anchor (and carry non-null values), the day buckets for
indices 0..6 contain exactly the points of their midnight-to-midnight
window, are pairwise disjoint, jointly exhaust the series, and each
non-empty bucket reports as High the first point of maximum value and
as Low the first point of minimum value. -/
theorem getTideTimesForDay_partition (tidePredictions : List TidePoint) (now : Int)
    (hrange : ∀ p ∈ tidePredictions,
      midnightOf now ≤ p.time ∧ p.time < midnightOf now + 7 * msPerDay)
    (hval : ∀ p ∈ tidePredictions, p.ft ≠ none) :
    (∀ i : Fin 7, ∀ p, p ∈ dayBucket i.1 tidePredictions now ↔
      (p ∈ tidePredictions ∧ midnightOf now + (i.1 : Int) * msPerDay ≤ p.time ∧
        p.time < midnightOf now + (i.1 : Int) * msPerDay + msPerDay)) ∧
    (∀ i j : Fin 7, i ≠ j → ∀ p,
      p ∈ dayBucket i.1 tidePredictions now → p ∉ dayBucket j.1 tidePredictions now) ∧
    (∀ p ∈ tidePredictions, ∃ i : Fin 7, p ∈ dayBucket i.1 tidePredictions now) ∧
    (∀ i : Fin 7, dayBucket i.1 tidePredictions now ≠ [] →
      ∃ hi lo, hi.ft ≠ none ∧ lo.ft ≠ none ∧
        IsFirstMaxBy (fun p => jsNum p.ft) (dayBucket i.1 tidePredictions now) hi ∧
        IsFirstMaxBy (fun p => -(jsNum p.ft)) (dayBucket i.1 tidePredictions now) lo ∧
        getTideTimesForDay i.1 tidePredictions now =
          (formatTime12 hi.time, formatTime12 lo.time)) := by
  have hD : (0 : Int) < msPerDay := by norm_num [msPerDay]
  have hmem : ∀ i : Fin 7, ∀ p, p ∈ dayBucket i.1 tidePredictions now ↔
      (p ∈ tidePredictions ∧ midnightOf now + (i.1 : Int) * msPerDay ≤ p.time ∧
        p.time < midnightOf now + (i.1 : Int) * msPerDay + msPerDay) := by
    intro i p
    simp only [dayBucket, List.mem_filter, Bool.and_eq_true, decide_eq_true_eq]
  refine ⟨hmem, ?_, ?_, ?_⟩
  · intro i j hij p hpi hpj
    obtain ⟨-, hi1, hi2⟩ := (hmem i p).mp hpi
    obtain ⟨-, hj1, hj2⟩ := (hmem j p).mp hpj
    rcases Nat.lt_or_ge i.1 j.1 with hlt | hge
    · have hc : (i.1 : Int) + 1 ≤ (j.1 : Int) := by exact_mod_cast hlt
      have hmul : ((i.1 : Int) + 1) * msPerDay ≤ (j.1 : Int) * msPerDay :=
        mul_le_mul_of_nonneg_right hc (le_of_lt hD)
      have hexp : ((i.1 : Int) + 1) * msPerDay = (i.1 : Int) * msPerDay + msPerDay := by
        ring
      linarith
    · have hlt : j.1 < i.1 := by
        rcases Nat.lt_or_ge j.1 i.1 with h | h
        · exact h
        · exact absurd (Fin.ext (Nat.le_antisymm h hge)) hij
      have hc : (j.1 : Int) + 1 ≤ (i.1 : Int) := by exact_mod_cast hlt
      have hmul : ((j.1 : Int) + 1) * msPerDay ≤ (i.1 : Int) * msPerDay :=
        mul_le_mul_of_nonneg_right hc (le_of_lt hD)
      have hexp : ((j.1 : Int) + 1) * msPerDay = (j.1 : Int) * msPerDay + msPerDay := by
        ring
      linarith
  · intro p hp
    obtain ⟨hlo, hhi⟩ := hrange p hp
    have hx0 : 0 ≤ p.time - midnightOf now := by linarith
    have hx7 : p.time - midnightOf now < 7 * msPerDay := by linarith
    set x := p.time - midnightOf now with hxdef
    have hDne : msPerDay ≠ 0 := by norm_num [msPerDay]
    have heq := Int.ediv_add_emod x msPerDay
    have hr0 : 0 ≤ x % msPerDay := Int.emod_nonneg x hDne
    have hrD : x % msPerDay < msPerDay := Int.emod_lt_of_pos x hD
    have hq0 : 0 ≤ x / msPerDay := Int.ediv_nonneg hx0 (le_of_lt hD)
    have hq7 : x / msPerDay < 7 := by
      by_contra hcon
      push_neg at hcon
      have h7 : 7 * msPerDay ≤ msPerDay * (x / msPerDay) := by
        have := mul_le_mul_of_nonneg_left hcon (le_of_lt hD)
        linarith [this]
      linarith
    have htn : (x / msPerDay).toNat < 7 := by omega
    refine ⟨⟨(x / msPerDay).toNat, htn⟩, (hmem _ p).mpr ⟨hp, ?_, ?_⟩⟩
    · have hcast : (((x / msPerDay).toNat : Nat) : Int) = x / msPerDay :=
        Int.toNat_of_nonneg hq0
      rw [hcast]
      have : msPerDay * (x / msPerDay) ≤ x := by linarith
      linarith [this]
    · have hcast : (((x / msPerDay).toNat : Nat) : Int) = x / msPerDay :=
        Int.toNat_of_nonneg hq0
      rw [hcast]
      have : x < msPerDay * (x / msPerDay) + msPerDay := by linarith
      linarith [this]
  · intro i hnei
    rcases hb : dayBucket i.1 tidePredictions now with _ | ⟨p, rest⟩
    · exact absurd hb hnei
    · have hpredsne : ¬ tidePredictions.length = 0 := by
        intro h0
        rw [List.length_eq_zero.mp h0] at hb
        simp [dayBucket] at hb
      have hgt : getTideTimesForDay i.1 tidePredictions now =
          (formatTime12 (runMaxBy (fun p' => jsNum p'.ft) rest p).time,
           formatTime12 (runMaxBy (fun p' => -(jsNum p'.ft)) rest p).time) := by
        simp only [getTideTimesForDay, if_neg hpredsne, hb, selectLoop_eq,
          runMaxBy_cons_self]
      have hsub : ∀ x, x ∈ p :: rest → x ∈ tidePredictions := by
        intro x hx
        rw [← hb] at hx
        exact (List.mem_filter.mp hx).1
      refine ⟨runMaxBy (fun p' => jsNum p'.ft) rest p,
        runMaxBy (fun p' => -(jsNum p'.ft)) rest p,
        hval _ (hsub _ (runMaxBy_mem _ rest p)),
        hval _ (hsub _ (runMaxBy_mem _ rest p)), ?_, ?_, hgt⟩
      · obtain ⟨l₁, l₂, hs, hh1, hh2⟩ := runMaxBy_split (fun p' => jsNum p'.ft) rest p
        exact ⟨l₁, l₂, hs, hh1, hh2⟩
      · obtain ⟨l₁, l₂, hs, hh1, hh2⟩ := runMaxBy_split (fun p' => -(jsNum p'.ft)) rest p
        exact ⟨l₁, l₂, hs, hh1, hh2⟩

/-- C3 witness: three points of day 0 (values 2, −1, 1). Bucket 0
contains the middle point, and the bucket reports its first maximum and
first minimum, giving High 6:00 AM and Low 12:00 PM. -/
theorem getTideTimesForDay_partition_witness :
    ((⟨43200000, some (-1)⟩ : TidePoint) ∈ dayBucket 0
      [⟨21600000, some 2⟩, ⟨43200000, some (-1)⟩, ⟨64800000, some 1⟩] 1000) ∧
    (∃ hi lo, hi.ft ≠ none ∧ lo.ft ≠ none ∧
      IsFirstMaxBy (fun p => jsNum p.ft)
        (dayBucket 0 [⟨21600000, some 2⟩, ⟨43200000, some (-1)⟩, ⟨64800000, some 1⟩] 1000) hi ∧
      IsFirstMaxBy (fun p => -(jsNum p.ft))
        (dayBucket 0 [⟨21600000, some 2⟩, ⟨43200000, some (-1)⟩, ⟨64800000, some 1⟩] 1000) lo ∧
      getTideTimesForDay 0
          [⟨21600000, some 2⟩, ⟨43200000, some (-1)⟩, ⟨64800000, some 1⟩] 1000 =
        (formatTime12 hi.time, formatTime12 lo.time)) := by
  have h := getTideTimesForDay_partition
    [⟨21600000, some 2⟩, ⟨43200000, some (-1)⟩, ⟨64800000, some 1⟩] 1000
    (by decide) (by decide)
  exact ⟨(h.1 ⟨0, by norm_num⟩ ⟨43200000, some (-1)⟩).mpr (by decide),
    h.2.2.2 ⟨0, by norm_num⟩ (by decide)⟩

end TexasTides
